import Mathlib

/-!
Shallow embedding of the Patricia-Merkle-Trie leaf node (`src/nodes/leaf.rs`)
together with the collaborators it uses.  Only `LeafNode` is present in the
source; the collaborators (`NibbleSlice`, the arenas, `NodeHash`, the
`NodeHasher` encoder and the Keccak-256 digest) are modelled from the
specification, as indicated on each definition.

Byte strings are `List Nat` with each entry intended to be `< 256`; machine
integers are `Nat` with explicit truncation where overflow matters.
-/

namespace PMT

/-- Modelled from the spec: a key of B bytes yields 2B nibbles; each byte
splits into its high nibble followed by its low nibble. -/
def nibblesOf (bs : List Nat) : List Nat :=
  bs.flatMap (fun b => [b / 16, b % 16])

/-- Modelled from the spec: a `NibbleSlice` is a view over a byte slice plus
a head offset in nibbles. -/
structure NibbleSlice where
  data : List Nat
  offset : Nat
  deriving Repr, DecidableEq

namespace NibbleSlice

/-- Modelled from the spec: `NibbleSlice::new` starts at offset 0. -/
def new (bs : List Nat) : NibbleSlice := ⟨bs, 0⟩

/-- The nibbles of the viewed data that remain after the head offset. -/
def rest (s : NibbleSlice) : List Nat :=
  (nibblesOf s.data).drop s.offset

/-- Modelled from the spec: `len()` is the number of remaining nibbles. -/
def len (s : NibbleSlice) : Nat := s.rest.length

/-- Modelled from the spec: `nth(i)` reads the i-th nibble from the head. -/
def nth (s : NibbleSlice) (i : Nat) : Option Nat :=
  (nibblesOf s.data)[s.offset + i]?

/-- Modelled from the spec: `next()` advances the head by one nibble and
returns the nibble that was at the head. -/
def next (s : NibbleSlice) : Option Nat × NibbleSlice :=
  ((nibblesOf s.data)[s.offset]?, { s with offset := s.offset + 1 })

/-- Modelled from the spec: `offset_add(n)` moves the head forward. -/
def offset_add (s : NibbleSlice) (n : Nat) : NibbleSlice :=
  { s with offset := s.offset + n }

/-- Modelled from the spec: `cmp_rest(&[u8])` is true iff the remaining
nibbles of self equal the nibble expansion of the argument; the argument is
aligned at the same offset, matching the insert step "P equals S (full
remainder match)" where S is the stored key aligned to the same offset. -/
def cmp_rest (s : NibbleSlice) (other : List Nat) : Bool :=
  (nibblesOf s.data).drop s.offset == (nibblesOf other).drop s.offset

end NibbleSlice

/-- Length of the longest common prefix of two lists. -/
def lcpLen : List Nat → List Nat → Nat
  | a :: as, b :: bs => if a = b then lcpLen as bs + 1 else 0
  | _, _ => 0

namespace NibbleSlice

/-- Modelled from the spec: `count_prefix_slice(other)` is the longest common
prefix length in nibbles, starting at the respective heads. -/
def count_prefix_slice (s t : NibbleSlice) : Nat :=
  lcpLen s.rest t.rest

end NibbleSlice

/-- Pack a nibble list two nibbles per byte (high nibble first).  The
odd-length tail case pads with a zero low nibble; callers only use it on
even-length lists. -/
def packPairs : List Nat → List Nat
  | a :: b :: tl => (a * 16 + b) :: packPairs tl
  | [a] => [a * 16]
  | [] => []

/-- Modelled from the spec: hex-prefix encoding of a nibble sequence with a
Leaf and an Extension kind flag and an odd and even parity bit.  Byte 0 holds
the kind flag in the top nibble and, for odd lengths, the first nibble. -/
def hexPrefixEncode (isLeaf : Bool) (nibs : List Nat) : List Nat :=
  let flag : Nat := (if isLeaf then 2 else 0) + (if nibs.length % 2 = 1 then 1 else 0)
  if nibs.length % 2 = 1 then
    (flag * 16 + nibs.headD 0) :: packPairs nibs.tail
  else
    flag * 16 :: packPairs nibs

namespace NibbleSlice

/-- Modelled from the spec: `split_to_vec(n)` materializes the next n nibbles
into an owned byte buffer using hex-prefix alignment (no kind flag: the
Extension parity layout). -/
def split_to_vec (s : NibbleSlice) (n : Nat) : List Nat :=
  hexPrefixEncode false (s.rest.take n)

end NibbleSlice

/-- Modelled from the spec: opaque handle into the value arena; the default
value denotes absent. -/
abbrev ValueRef := Option Nat

/-- Wrap an arena index as a `ValueRef`. -/
def ValueRef.new (i : Nat) : ValueRef := some i

/-- The default `ValueRef`, denoting an absent value. -/
def ValueRef.default : ValueRef := none

/-- Modelled from the spec: opaque handle into the node arena; the default
value denotes no child. -/
abbrev NodeRef := Option Nat

/-- Wrap an arena index as a `NodeRef`. -/
def NodeRef.new (i : Nat) : NodeRef := some i

/-- The default `NodeRef`, denoting no child. -/
def NodeRef.default : NodeRef := none

/-- Modelled from the spec: the cached node hash with its dirty bit.  `none`
means dirty (or never computed); `some bs` means clean with cached bytes
`bs` (either an inline short encoding or a digest output). -/
abbrev NodeHash := Option (List Nat)

/-- Modelled from the spec: marking dirty invalidates the cache. -/
def NodeHash.mark_as_dirty (_h : NodeHash) : NodeHash := none

/-- Modelled from the spec: `extract_ref()` returns the cached bytes when the
dirty bit is clear, else nothing. -/
def NodeHash.extract_ref (h : NodeHash) : Option (List Nat) := h

/-- Modelled from the spec: mapping from `ValueRef` index to a stored
(path, value) pair; the full key path is stored alongside the value. -/
abbrev ValuesStorage := List (List Nat × List Nat)

/-- Leaf node, from `src/nodes/leaf.rs`: terminal node whose full key and
value live in the values arena at `value_ref`. -/
structure LeafNode where
  value_ref : ValueRef
  hash : NodeHash
  deriving Repr, DecidableEq

/-- From `src/nodes/leaf.rs` (`LeafNode::new`): a fresh leaf with the given
value reference and a default (dirty, empty) cached hash. -/
def LeafNode.new (vr : ValueRef) : LeafNode := ⟨vr, none⟩

/-- Modelled from the spec: 16 slotted children plus an optional terminal
value (`BranchNode`; its own file is not part of the source under scrutiny,
only what `LeafNode::insert` constructs). -/
structure BranchNode where
  choices : List NodeRef
  value_ref : ValueRef
  hash : NodeHash
  deriving Repr, DecidableEq

/-- Modelled from the spec: `BranchNode::new(choices)` has an absent value
and a default (dirty) cached hash. -/
def BranchNode.new (cs : List NodeRef) : BranchNode := ⟨cs, ValueRef.default, none⟩

/-- Modelled from the spec: `update_value_ref` overwrites the branch's
value slot. -/
def BranchNode.update_value_ref (b : BranchNode) (vr : ValueRef) : BranchNode :=
  { b with value_ref := vr }

/-- Modelled from the spec: a shared nibble run (hex-prefix-encoded bytes)
leading to exactly one child. -/
structure ExtensionNode where
  prefixBytes : List Nat
  child : NodeRef
  hash : NodeHash
  deriving Repr, DecidableEq

/-- Modelled from the spec: `ExtensionNode::new(prefix, child)` with a
default (dirty) cached hash. -/
def ExtensionNode.new (pb : List Nat) (c : NodeRef) : ExtensionNode := ⟨pb, c, none⟩

/-- Modelled from the spec: tagged union of the three node variants. -/
inductive Node where
  | leaf (l : LeafNode)
  | branch (b : BranchNode)
  | extension (e : ExtensionNode)
  deriving Repr, DecidableEq

/-- Modelled from the spec: mapping from `NodeRef` index to `Node`;
append-only within a trie's lifetime. -/
abbrev NodesStorage := List Node

/-- Modelled from the spec: arena insertion appends the node and returns the
index of the fresh slot. -/
def arenaInsert (ns : NodesStorage) (n : Node) : NodesStorage × Nat :=
  (ns ++ [n], ns.length)

/-- Modelled from the spec: the tagged value returned by recursive inserts,
telling the caller where the new value must be bound. -/
inductive InsertAction where
  | insert (r : NodeRef)
  | insertSelf
  | replace (v : ValueRef)
  deriving Repr, DecidableEq

/-- Modelled from the spec: `quantize_self(self_ref)` promotes `InsertSelf`
to `Insert(self_ref)` and leaves the other actions unchanged. -/
def InsertAction.quantize_self : InsertAction → NodeRef → InsertAction
  | .insertSelf, r => .insert r
  | a, _ => a

/-- The 16 empty branch slots. -/
def emptyChoices : List NodeRef := List.replicate 16 NodeRef.default

/-- Write one branch slot (the source's `choices[i] = r`). -/
def setChoice (cs : List NodeRef) (i : Nat) (r : NodeRef) : List NodeRef :=
  cs.set i r

/-- From `src/nodes/leaf.rs` (`LeafNode::get`): if the remaining path (and
offset) matches the value's path, return the value, else no value is
present.  The outer `Option` models the `expect` panic on a value reference
that does not resolve in the arena. -/
def LeafNode.get (l : LeafNode) (values : ValuesStorage) (path : NibbleSlice) :
    Option (Option (List Nat)) :=
  match l.value_ref.bind (fun i => values[i]?) with
  | none => none
  | some (value_path, value) =>
      some (if path.cmp_rest value_path then some value else none)

/-- Shared tail of `LeafNode::insert`: if the common prefix is non-zero, the
branch goes into the node arena and is wrapped in an extension whose prefix
is `path.split_to_vec(offset)`, and the action is `quantize_self`-lifted;
otherwise the bare branch is returned. -/
def finishInsert (nodes : NodesStorage) (values : ValuesStorage) (path : NibbleSlice)
    (offset : Nat) (branch_node : BranchNode) (act : InsertAction) :
    Option (NodesStorage × ValuesStorage × Node × InsertAction) :=
  if offset ≠ 0 then
    let ins := arenaInsert nodes (Node.branch branch_node)
    let branchRef := NodeRef.new ins.2
    some (ins.1, values, Node.extension (ExtensionNode.new (path.split_to_vec offset) branchRef),
      act.quantize_self branchRef)
  else
    some (nodes, values, Node.branch branch_node, act)

/-- From `src/nodes/leaf.rs` (`LeafNode::insert`): mark the cached hash
dirty, then either replace (full remainder match) or split into a branch
(cases A, B, C on the divergence point), wrapping in an extension when a
common prefix exists.  The outer `Option` models the `expect` and `unwrap`
panics; the values storage is threaded through unmodified, mirroring that
the source receives it mutably but never writes it. -/
def LeafNode.insert (l : LeafNode) (nodes : NodesStorage) (values : ValuesStorage)
    (path : NibbleSlice) : Option (NodesStorage × ValuesStorage × Node × InsertAction) :=
  let self1 : LeafNode := { l with hash := l.hash.mark_as_dirty }
  match l.value_ref.bind (fun i => values[i]?) with
  | none => none
  | some (value_path, _) =>
    if path.cmp_rest value_path then
      some (nodes, values, Node.leaf self1, InsertAction.replace l.value_ref)
    else
      let offset := path.count_prefix_slice ((NibbleSlice.new value_path).offset_add path.offset)
      let path_branch := path.offset_add offset
      let absolute_offset := path_branch.offset
      if absolute_offset = 2 * path.data.length then
        match (NibbleSlice.new value_path).nth absolute_offset with
        | none => none
        | some nib =>
          let ins := arenaInsert nodes (Node.leaf self1)
          let branch_node := BranchNode.new (setChoice emptyChoices nib (NodeRef.new ins.2))
          finishInsert ins.1 values path offset branch_node InsertAction.insertSelf
      else if absolute_offset = 2 * value_path.length then
        let ins := arenaInsert nodes (Node.leaf (LeafNode.new ValueRef.default))
        match (path_branch.next).1 with
        | none => none
        | some nib =>
          let branch_node :=
            (BranchNode.new (setChoice emptyChoices nib (NodeRef.new ins.2))).update_value_ref
              l.value_ref
          finishInsert ins.1 values path offset branch_node
            (InsertAction.insert (NodeRef.new ins.2))
      else
        let insChild := arenaInsert nodes (Node.leaf (LeafNode.new ValueRef.default))
        match (NibbleSlice.new value_path).nth absolute_offset, (path_branch.next).1 with
        | some nibS, some nibP =>
          let insSelf := arenaInsert insChild.1 (Node.leaf self1)
          let branch_node := BranchNode.new
            (setChoice (setChoice emptyChoices nibS (NodeRef.new insSelf.2)) nibP
              (NodeRef.new insChild.2))
          finishInsert insSelf.1 values path offset branch_node
            (InsertAction.insert (NodeRef.new insChild.2))
        | _, _ => none

/-! ## Hashing engine

The `NodeHasher` primitives (`write_list_header`, `write_path_slice`,
`write_bytes`, `path_len`, `bytes_len`) and the digest are collaborators
outside the source under scrutiny; they are modelled from the spec's wire
format: hex-prefix path encoding plus recursive length prefix framing,
hashed with Keccak-256 (the reference digest choice). -/

/-- Big-endian byte expansion of a length, on bounded fuel so that it
reduces structurally (lengths fit in 16 bytes by far). -/
def beBytesAux : Nat → Nat → List Nat
  | 0, _ => []
  | _ + 1, 0 => []
  | fuel + 1, n => beBytesAux fuel (n / 256) ++ [n % 256]

/-- Modelled from the spec: big-endian bytes of a payload length. -/
def beBytes (n : Nat) : List Nat := beBytesAux 16 n

/-- Modelled from the spec: recursive-length-prefix framing of a byte
string (a single byte below 0x80 stands for itself; otherwise a length
header precedes the bytes). -/
def rlpStr (bs : List Nat) : List Nat :=
  if bs.length = 1 ∧ bs.headD 0 < 0x80 then bs
  else if bs.length ≤ 55 then (0x80 + bs.length) :: bs
  else (0xB7 + (beBytes bs.length).length) :: (beBytes bs.length ++ bs)

/-- Modelled from the spec: `write_list_header(total_payload_len)` emits the
list header for a payload of the given length. -/
def rlpListHeader (payloadLen : Nat) : List Nat :=
  if payloadLen ≤ 55 then [0xC0 + payloadLen]
  else (0xF7 + (beBytes payloadLen).length) :: beBytes payloadLen

/-- Modelled from the spec: the Leaf and Extension kind flag of the
hex-prefix encoding. -/
inductive PathKind where
  | leaf
  | extension
  deriving Repr, DecidableEq

/-- Modelled from the spec: `write_path_slice` emits the framed hex-prefix
encoding of the remaining nibbles of the slice. -/
def writePathSlice (s : NibbleSlice) (kind : PathKind) : List Nat :=
  rlpStr (hexPrefixEncode (kind = PathKind.leaf) s.rest)

/-- Modelled from the spec: `write_bytes` emits the framed byte string. -/
def writeBytes (bs : List Nat) : List Nat := rlpStr bs

/-- Modelled from the spec: `path_len(nibble_count)` is the framed length of
a path item holding that many nibbles (the hex-prefix form occupies
`count / 2 + 1` bytes; a one-byte form is below 0x80, hence unframed). -/
def pathLen (nibbleCount : Nat) : Nat :=
  let hl := nibbleCount / 2 + 1
  if hl = 1 then 1
  else if hl ≤ 55 then hl + 1
  else hl + 1 + (beBytes hl).length

/-- Modelled from the spec: `bytes_len(byte_count, first_byte)` is the
framed length of a byte-string item. -/
def bytesLen (byteCount : Nat) (firstByte : Nat) : Nat :=
  if byteCount = 1 ∧ firstByte < 0x80 then 1
  else if byteCount ≤ 55 then byteCount + 1
  else byteCount + 1 + (beBytes byteCount).length

/-! ### Keccak-256, modelled from the spec's reference digest choice. -/

/-- Truncation modulus for 64-bit lanes. -/
def u64 : Nat := 18446744073709551616

/-- Left-rotation of a 64-bit lane. -/
def rotl64 (x k : Nat) : Nat :=
  ((x <<< k) % u64) ||| (x >>> (64 - k))

/-- Lane accessor: the Keccak state is 25 lanes, indexed x + 5y. -/
def lane (s : List Nat) (x y : Nat) : Nat :=
  s.getD (x % 5 + 5 * (y % 5)) 0

/-- Keccak θ step. -/
def theta (s : List Nat) : List Nat :=
  let c := (List.range 5).map (fun x =>
    lane s x 0 ^^^ lane s x 1 ^^^ lane s x 2 ^^^ lane s x 3 ^^^ lane s x 4)
  let d := (List.range 5).map (fun x =>
    c.getD ((x + 4) % 5) 0 ^^^ rotl64 (c.getD ((x + 1) % 5) 0) 1)
  (List.range 25).map (fun i => s.getD i 0 ^^^ d.getD (i % 5) 0)

/-- Keccak rotation offsets, indexed x + 5y: generated by the ρ recurrence
along the π orbit starting at lane (1, 0), whose t-th visited lane is
rotated by (t+1)(t+2)/2 mod 64. -/
def rotOff : List Nat :=
  ((List.range 24).foldl (fun st t =>
    ((st.1.2, (2 * st.1.1 + 3 * st.1.2) % 5),
      st.2.set (st.1.1 + 5 * st.1.2) ((t + 1) * (t + 2) / 2 % 64)))
    ((1, 0), List.replicate 25 0)).2

/-- Keccak ρ and π steps: the output lane at (X, Y) is the rotated input
lane at ((X + 3Y) mod 5, X). -/
def rhoPi (s : List Nat) : List Nat :=
  (List.range 25).map (fun i =>
    let bigX := i % 5
    let bigY := i / 5
    let x := (bigX + 3 * bigY) % 5
    let y := bigX
    rotl64 (lane s x y) (rotOff.getD (x + 5 * y) 0))

/-- Keccak χ step. -/
def chi (s : List Nat) : List Nat :=
  (List.range 25).map (fun i =>
    let x := i % 5
    let y := i / 5
    s.getD i 0 ^^^ ((lane s (x + 1) y ^^^ (u64 - 1)) &&& lane s (x + 2) y))

/-- One step of the byte-wide linear feedback register that generates the
Keccak round-constant bits (feedback polynomial 0x71 on overflow). -/
def lfsrStep (r : Nat) : Nat :=
  if r * 2 < 256 then r * 2 else ((r * 2) ^^^ 0x71) % 256

/-- The round-constant register after t steps from its initial value 1. -/
def lfsrAt : Nat → Nat
  | 0 => 1
  | t + 1 => lfsrStep (lfsrAt t)

/-- Keccak round constants: bit (2^j - 1) of constant i is the low bit of
the register at time 7 i + j. -/
def keccakRC : List Nat :=
  (List.range 24).map (fun i =>
    (List.range 7).foldl (fun acc j => acc ||| ((lfsrAt (7 * i + j) % 2) <<< (2 ^ j - 1))) 0)

/-- Keccak ι step. -/
def iotaStep (rc : Nat) (s : List Nat) : List Nat :=
  s.set 0 (s.getD 0 0 ^^^ rc)

/-- The Keccak-f[1600] permutation: 24 rounds of θ, ρπ, χ, ι. -/
def keccakF (s : List Nat) : List Nat :=
  keccakRC.foldl (fun st rc => iotaStep rc (chi (rhoPi (theta st)))) s

/-- Keccak multi-rate padding for rate 136 (the 0x01 .. 0x80 pattern). -/
def keccakPad (msg : List Nat) : List Nat :=
  let q := 136 - msg.length % 136
  if q = 1 then msg ++ [0x81]
  else msg ++ 0x01 :: (List.replicate (q - 2) 0 ++ [0x80])

/-- Interpret 8 bytes as a little-endian 64-bit lane. -/
def leLane (bs : List Nat) : Nat :=
  bs.foldr (fun b acc => acc * 256 + b) 0

/-- Absorb one 136-byte block into the state and permute. -/
def absorbBlock (s : List Nat) (block : List Nat) : List Nat :=
  let lanes := (List.range 17).map (fun i => leLane ((block.drop (8 * i)).take 8))
  keccakF ((List.range 25).map (fun i => s.getD i 0 ^^^ lanes.getD i 0))

/-- Absorb a padded message block by block, on structural fuel. -/
def absorbAll : Nat → List Nat → List Nat → List Nat
  | 0, s, _ => s
  | fuel + 1, s, msg =>
    if msg.isEmpty then s
    else absorbAll fuel (absorbBlock s (msg.take 136)) (msg.drop 136)

/-- Keccak-256 of a byte string: absorb at rate 136, squeeze 32 bytes. -/
def keccak256 (msg : List Nat) : List Nat :=
  let padded := keccakPad msg
  let s := absorbAll (padded.length + 1) (List.replicate 25 0) padded
  (List.range 4).flatMap (fun i =>
    (List.range 8).map (fun j => (s.getD i 0 >>> (8 * j)) % 256))

/-- Modelled from the spec: `finalize` uses the encoded bytes verbatim when
the encoded length is at most 31, else the digest output. -/
def hashFinalize (encoded : List Nat) : List Nat :=
  if encoded.length ≤ 31 then encoded else keccak256 encoded

/-- Modelled from the spec: the encoded byte stream of a leaf node, a two-item
list holding the framed hex-prefix of the key nibble suffix from the given
offset with kind Leaf, then the framed value bytes; the list header length is
pre-computed from `path_len` and `bytes_len` as the source does. -/
def leafEncoding (key value : List Nat) (key_offset : Nat) : List Nat :=
  let keySlice := (NibbleSlice.new key).offset_add key_offset
  let key_len := pathLen keySlice.len
  let value_len := bytesLen value.length (value.headD 0)
  rlpListHeader (key_len + value_len)
    ++ writePathSlice keySlice PathKind.leaf
    ++ writeBytes value

/-- From `src/nodes/leaf.rs` (`LeafNode::compute_hash`): return the cached
hash when clean; otherwise encode the two-item leaf list and finalize.  The
result pairs the produced hash reference with the node's cached-hash slot
after the call (the source caches through the `NodeHash` cell).  The outer
`Option` models the `expect` panic. -/
def LeafNode.compute_hash (l : LeafNode) (values : ValuesStorage) (key_offset : Nat) :
    Option (List Nat × NodeHash) :=
  match l.hash.extract_ref with
  | some cached => some (cached, l.hash)
  | none =>
    match l.value_ref.bind (fun i => values[i]?) with
    | none => none
    | some (key, value) =>
      let res := hashFinalize (leafEncoding key value key_offset)
      some (res, some res)

/-! ## Auxiliary lemmas -/

theorem nibblesOf_length (bs : List Nat) : (nibblesOf bs).length = 2 * bs.length := by
  induction bs with
  | nil => rfl
  | cons b tl ih => simp [nibblesOf] at ih ⊢; omega

theorem lcpLen_le_left (a b : List Nat) : lcpLen a b ≤ a.length := by
  induction a generalizing b with
  | nil => simp [lcpLen]
  | cons x as ih =>
    cases b with
    | nil => simp [lcpLen]
    | cons y bs =>
      by_cases hxy : x = y
      · simpa [lcpLen, hxy] using ih bs
      · simp [lcpLen, hxy]

theorem lcpLen_le_right (a b : List Nat) : lcpLen a b ≤ b.length := by
  induction a generalizing b with
  | nil => simp [lcpLen]
  | cons x as ih =>
    cases b with
    | nil => simp [lcpLen]
    | cons y bs =>
      by_cases hxy : x = y
      · have := ih bs
        simp [lcpLen, hxy]
        omega
      · simp [lcpLen, hxy]

theorem length_lt_of_lcpLen_left (a b : List Nat) (h : lcpLen a b = a.length)
    (hne : a ≠ b) : a.length < b.length := by
  induction a generalizing b with
  | nil =>
    cases b with
    | nil => exact absurd rfl hne
    | cons y bs => simp
  | cons x as ih =>
    cases b with
    | nil => simp [lcpLen] at h
    | cons y bs =>
      by_cases hxy : x = y
      · subst hxy
        simp [lcpLen] at h
        have hne' : as ≠ bs := by
          intro hh; exact hne (by rw [hh])
        have := ih bs h hne'
        simpa using this
      · simp [lcpLen, hxy] at h

/-- Divergence-point bounds shared by the leaf-insert case analysis: with the
head offset inside both keys and the remainders unequal, the absolute
divergence offset stays strictly inside the stored key in cases A and C and
strictly inside the inserting key in cases B and C. -/
theorem divergence_bounds (path : NibbleSlice) (vp : List Nat)
    (hoffK : path.offset ≤ 2 * path.data.length)
    (hoffS : path.offset ≤ 2 * vp.length)
    (hc : path.cmp_rest vp = false) :
    (path.offset + lcpLen ((nibblesOf path.data).drop path.offset)
        ((nibblesOf vp).drop path.offset) = 2 * path.data.length →
      path.offset + lcpLen ((nibblesOf path.data).drop path.offset)
        ((nibblesOf vp).drop path.offset) < 2 * vp.length) ∧
    (path.offset + lcpLen ((nibblesOf path.data).drop path.offset)
        ((nibblesOf vp).drop path.offset) ≠ 2 * path.data.length →
      path.offset + lcpLen ((nibblesOf path.data).drop path.offset)
        ((nibblesOf vp).drop path.offset) < 2 * path.data.length) ∧
    (path.offset + lcpLen ((nibblesOf path.data).drop path.offset)
        ((nibblesOf vp).drop path.offset) ≠ 2 * vp.length →
      path.offset + lcpLen ((nibblesOf path.data).drop path.offset)
        ((nibblesOf vp).drop path.offset) < 2 * vp.length) := by
  set A := (nibblesOf path.data).drop path.offset with hAdef
  set B := (nibblesOf vp).drop path.offset with hBdef
  have hA : A.length = 2 * path.data.length - path.offset := by
    rw [hAdef, List.length_drop, nibblesOf_length]
  have hB : B.length = 2 * vp.length - path.offset := by
    rw [hBdef, List.length_drop, nibblesOf_length]
  have hAB : A ≠ B := by
    intro hh
    rw [NibbleSlice.cmp_rest] at hc
    rw [← hAdef, ← hBdef, hh] at hc
    simp at hc
  have h1 := lcpLen_le_left A B
  have h2 := lcpLen_le_right A B
  refine ⟨fun habs => ?_, fun hne => by omega, fun hne => by omega⟩
  have hfull : lcpLen A B = A.length := by omega
  have := length_lt_of_lcpLen_left A B hfull hAB
  omega

theorem getElem?_exists_of_lt {l : List Nat} {i : Nat} (h : i < l.length) :
    ∃ x, l[i]? = some x := ⟨l[i], List.getElem?_eq_getElem h⟩


/-! ## Claims -/

/-- Claim C1: on a leaf, `get` returns the stored value exactly when the
remaining search path matches the stored key via `cmp_rest`, and no value
for every other search path. -/
theorem claim_C1 (l : LeafNode) (values : ValuesStorage) (path : NibbleSlice)
    (i : Nat) (vp vv : List Nat)
    (hv : l.value_ref = ValueRef.new i) (hlook : values[i]? = some (vp, vv)) :
    (l.get values path = some (some vv) ↔ path.cmp_rest vp = true) ∧
    (l.get values path = some none ↔ path.cmp_rest vp = false) := by
  have hbind : l.value_ref.bind (fun j => values[j]?) = some (vp, vv) := by
    rw [hv]; simp [ValueRef.new, hlook]
  unfold LeafNode.get
  rw [hbind]
  cases hc : path.cmp_rest vp <;> simp [hc]

/-- Witness for C1: on the leaf storing 0x12 with value 0x12345678, `get`
with path 0x12 yields the value and with path 0x34 yields nothing. -/
theorem claim_C1_witness :
    ((LeafNode.new (ValueRef.new 0)).get [([0x12], [0x12, 0x34, 0x56, 0x78])]
      (NibbleSlice.new [0x12]) = some (some [0x12, 0x34, 0x56, 0x78])) ∧
    ((LeafNode.new (ValueRef.new 0)).get [([0x12], [0x12, 0x34, 0x56, 0x78])]
      (NibbleSlice.new [0x34]) = some none) :=
  ⟨(claim_C1 _ _ _ 0 _ _ rfl rfl).1.mpr (by decide),
   (claim_C1 _ _ _ 0 _ _ rfl rfl).2.mpr (by decide)⟩

/-- Claim C2: a leaf insert whose path fully matches the stored key returns
the same leaf (value reference unchanged, hash dirtied) with action
Replace of its own value reference, allocating no new node and leaving the
values storage unchanged. -/
theorem claim_C2 (l : LeafNode) (nodes : NodesStorage) (values : ValuesStorage)
    (path : NibbleSlice) (i : Nat) (vp vv : List Nat)
    (hv : l.value_ref = ValueRef.new i) (hlook : values[i]? = some (vp, vv))
    (hc : path.cmp_rest vp = true) :
    l.insert nodes values path =
      some (nodes, values, Node.leaf ⟨l.value_ref, none⟩,
        InsertAction.replace l.value_ref) := by
  have hbind : l.value_ref.bind (fun j => values[j]?) = some (vp, vv) := by
    rw [hv]; simp [ValueRef.new, hlook]
  unfold LeafNode.insert
  rw [hbind]
  simp [hc, NodeHash.mark_as_dirty, hv]

/-- Witness for C2: inserting 0x12 into the leaf storing 0x12 yields a Leaf
and action Replace of value reference 0. -/
theorem claim_C2_witness :
    (LeafNode.new (ValueRef.new 0)).insert [] [([0x12], [0x12, 0x34, 0x56, 0x78])]
      (NibbleSlice.new [0x12]) =
      some ([], [([0x12], [0x12, 0x34, 0x56, 0x78])],
        Node.leaf ⟨ValueRef.new 0, none⟩, InsertAction.replace (ValueRef.new 0)) :=
  claim_C2 _ _ _ _ 0 _ _ rfl rfl (by decide)

/-- Claim C3: leaf insert, case A (the inserting path exhausted at the
divergence point): the original leaf is re-inserted at a fresh node
reference and becomes the branch choice at the stored key nibble at the
absolute offset, with action InsertSelf, promoted to Insert of the branch
reference when a common prefix wraps the branch in an extension. -/
theorem claim_C3 (l : LeafNode) (nodes : NodesStorage) (values : ValuesStorage)
    (path : NibbleSlice) (i : Nat) (vp vv : List Nat) (nib : Nat)
    (hv : l.value_ref = ValueRef.new i) (hlook : values[i]? = some (vp, vv))
    (hc : path.cmp_rest vp = false)
    (habs : path.offset + lcpLen ((nibblesOf path.data).drop path.offset)
      ((nibblesOf vp).drop path.offset) = 2 * path.data.length)
    (hnib : (nibblesOf vp)[2 * path.data.length]? = some nib) :
    (lcpLen ((nibblesOf path.data).drop path.offset) ((nibblesOf vp).drop path.offset) = 0 ∧
      l.insert nodes values path = some (nodes ++ [Node.leaf ⟨l.value_ref, none⟩], values,
        Node.branch (BranchNode.new (setChoice emptyChoices nib (NodeRef.new nodes.length))),
        InsertAction.insertSelf)) ∨
    (lcpLen ((nibblesOf path.data).drop path.offset) ((nibblesOf vp).drop path.offset) ≠ 0 ∧
      l.insert nodes values path = some (nodes ++ [Node.leaf ⟨l.value_ref, none⟩,
          Node.branch (BranchNode.new (setChoice emptyChoices nib (NodeRef.new nodes.length)))],
        values,
        Node.extension (ExtensionNode.new
          (path.split_to_vec (lcpLen ((nibblesOf path.data).drop path.offset)
            ((nibblesOf vp).drop path.offset)))
          (NodeRef.new (nodes.length + 1))),
        InsertAction.insert (NodeRef.new (nodes.length + 1)))) := by
  have hbind : l.value_ref.bind (fun j => values[j]?) = some (vp, vv) := by
    rw [hv]; simp [ValueRef.new, hlook]
  unfold LeafNode.insert finishInsert
  rw [hbind]
  simp only [hc, Bool.false_eq_true, if_false, NibbleSlice.count_prefix_slice,
    NibbleSlice.rest, NibbleSlice.offset_add, NibbleSlice.new, NibbleSlice.nth,
    NodeHash.mark_as_dirty, Nat.zero_add, hv]
  rw [habs, hnib]
  by_cases h0 : lcpLen ((nibblesOf path.data).drop path.offset)
      ((nibblesOf vp).drop path.offset) = 0
  · left
    refine ⟨h0, ?_⟩
    simp [h0, arenaInsert]
  · right
    refine ⟨h0, ?_⟩
    simp [h0, arenaInsert, InsertAction.quantize_self]

/-- Witness for C3: inserting 0x12 into the leaf storing 0x1234 yields an
Extension and action Insert of node reference 1. -/
theorem claim_C3_witness :
    (LeafNode.new (ValueRef.new 0)).insert [] [([0x12, 0x34], [0x12, 0x34, 0x56, 0x78])]
      (NibbleSlice.new [0x12]) =
      some ([Node.leaf ⟨ValueRef.new 0, none⟩,
        Node.branch (BranchNode.new (setChoice emptyChoices 3 (NodeRef.new 0)))],
        [([0x12, 0x34], [0x12, 0x34, 0x56, 0x78])],
        Node.extension (ExtensionNode.new
          ((NibbleSlice.new [0x12]).split_to_vec 2) (NodeRef.new 1)),
        InsertAction.insert (NodeRef.new 1)) := by
  have h := claim_C3 (LeafNode.new (ValueRef.new 0)) []
    [([0x12, 0x34], [0x12, 0x34, 0x56, 0x78])] (NibbleSlice.new [0x12]) 0
    [0x12, 0x34] [0x12, 0x34, 0x56, 0x78] 3 rfl rfl (by decide) (by decide) (by decide)
  rcases h with ⟨h0, _⟩ | ⟨_, hres⟩
  · exact absurd h0 (by decide)
  · rw [hres]
    decide

/-- Claim C4: leaf insert, case B (the stored key exhausted at the
divergence point): an empty leaf is allocated as the child, the branch takes
the original value reference in its value slot and the child at the
inserting path next nibble, with action Insert of the child reference,
wrapped in an extension when a common prefix exists. -/
theorem claim_C4 (l : LeafNode) (nodes : NodesStorage) (values : ValuesStorage)
    (path : NibbleSlice) (i : Nat) (vp vv : List Nat) (nib : Nat)
    (hv : l.value_ref = ValueRef.new i) (hlook : values[i]? = some (vp, vv))
    (hc : path.cmp_rest vp = false)
    (hA : path.offset + lcpLen ((nibblesOf path.data).drop path.offset)
      ((nibblesOf vp).drop path.offset) ≠ 2 * path.data.length)
    (habs : path.offset + lcpLen ((nibblesOf path.data).drop path.offset)
      ((nibblesOf vp).drop path.offset) = 2 * vp.length)
    (hnib : (nibblesOf path.data)[2 * vp.length]? = some nib) :
    (lcpLen ((nibblesOf path.data).drop path.offset) ((nibblesOf vp).drop path.offset) = 0 ∧
      l.insert nodes values path = some (nodes ++ [Node.leaf (LeafNode.new ValueRef.default)],
        values,
        Node.branch ((BranchNode.new (setChoice emptyChoices nib
          (NodeRef.new nodes.length))).update_value_ref l.value_ref),
        InsertAction.insert (NodeRef.new nodes.length))) ∨
    (lcpLen ((nibblesOf path.data).drop path.offset) ((nibblesOf vp).drop path.offset) ≠ 0 ∧
      l.insert nodes values path = some (nodes ++ [Node.leaf (LeafNode.new ValueRef.default),
          Node.branch ((BranchNode.new (setChoice emptyChoices nib
            (NodeRef.new nodes.length))).update_value_ref l.value_ref)],
        values,
        Node.extension (ExtensionNode.new
          (path.split_to_vec (lcpLen ((nibblesOf path.data).drop path.offset)
            ((nibblesOf vp).drop path.offset)))
          (NodeRef.new (nodes.length + 1))),
        InsertAction.insert (NodeRef.new nodes.length))) := by
  have hbind : l.value_ref.bind (fun j => values[j]?) = some (vp, vv) := by
    rw [hv]; simp [ValueRef.new, hlook]
  unfold LeafNode.insert finishInsert
  rw [hbind]
  simp only [hc, Bool.false_eq_true, if_false, NibbleSlice.count_prefix_slice,
    NibbleSlice.rest, NibbleSlice.offset_add, NibbleSlice.new, NibbleSlice.nth,
    NibbleSlice.next, NodeHash.mark_as_dirty, Nat.zero_add, hv]
  rw [habs] at hA ⊢
  rw [hnib]
  by_cases h0 : lcpLen ((nibblesOf path.data).drop path.offset)
      ((nibblesOf vp).drop path.offset) = 0
  · left
    refine ⟨h0, ?_⟩
    simp [h0, hA, arenaInsert, InsertAction.quantize_self]
  · right
    refine ⟨h0, ?_⟩
    simp [h0, hA, arenaInsert, InsertAction.quantize_self]

/-- Witness for C4: inserting 0x1234 into the leaf storing 0x12 yields an
Extension and action Insert of node reference 0. -/
theorem claim_C4_witness :
    (LeafNode.new (ValueRef.new 0)).insert [] [([0x12], [0x12, 0x34, 0x56, 0x78])]
      (NibbleSlice.new [0x12, 0x34]) =
      some ([Node.leaf (LeafNode.new ValueRef.default),
        Node.branch ((BranchNode.new (setChoice emptyChoices 3
          (NodeRef.new 0))).update_value_ref (ValueRef.new 0))],
        [([0x12], [0x12, 0x34, 0x56, 0x78])],
        Node.extension (ExtensionNode.new
          ((NibbleSlice.new [0x12, 0x34]).split_to_vec 2) (NodeRef.new 1)),
        InsertAction.insert (NodeRef.new 0)) := by
  have h := claim_C4 (LeafNode.new (ValueRef.new 0)) []
    [([0x12], [0x12, 0x34, 0x56, 0x78])] (NibbleSlice.new [0x12, 0x34]) 0
    [0x12] [0x12, 0x34, 0x56, 0x78] 3 rfl rfl (by decide) (by decide) (by decide) (by decide)
  rcases h with ⟨h0, _⟩ | ⟨_, hres⟩
  · exact absurd h0 (by decide)
  · rw [hres]
    decide


/-- Claim C5: leaf insert, case C (divergence inside both keys): an empty
leaf child and a re-inserted copy of the original leaf land in the branch at
the path next nibble and the stored key divergence nibble respectively, with
action Insert of the child reference; and in every non-replace case the
branch is wrapped in an extension whose prefix is `split_to_vec` of the
common prefix length exactly when that length is non-zero. -/
theorem claim_C5 (l : LeafNode) (nodes : NodesStorage) (values : ValuesStorage)
    (path : NibbleSlice) (i : Nat) (vp vv : List Nat)
    (hv : l.value_ref = ValueRef.new i) (hlook : values[i]? = some (vp, vv))
    (hc : path.cmp_rest vp = false) :
    (∀ nibS nibP : Nat,
      path.offset + lcpLen ((nibblesOf path.data).drop path.offset)
        ((nibblesOf vp).drop path.offset) ≠ 2 * path.data.length →
      path.offset + lcpLen ((nibblesOf path.data).drop path.offset)
        ((nibblesOf vp).drop path.offset) ≠ 2 * vp.length →
      (nibblesOf vp)[path.offset + lcpLen ((nibblesOf path.data).drop path.offset)
        ((nibblesOf vp).drop path.offset)]? = some nibS →
      (nibblesOf path.data)[path.offset + lcpLen ((nibblesOf path.data).drop path.offset)
        ((nibblesOf vp).drop path.offset)]? = some nibP →
      (lcpLen ((nibblesOf path.data).drop path.offset) ((nibblesOf vp).drop path.offset) = 0 ∧
        l.insert nodes values path = some (nodes ++ [Node.leaf (LeafNode.new ValueRef.default),
            Node.leaf ⟨l.value_ref, none⟩], values,
          Node.branch (BranchNode.new (setChoice (setChoice emptyChoices nibS
            (NodeRef.new (nodes.length + 1))) nibP (NodeRef.new nodes.length))),
          InsertAction.insert (NodeRef.new nodes.length))) ∨
      (lcpLen ((nibblesOf path.data).drop path.offset) ((nibblesOf vp).drop path.offset) ≠ 0 ∧
        l.insert nodes values path = some (nodes ++ [Node.leaf (LeafNode.new ValueRef.default),
            Node.leaf ⟨l.value_ref, none⟩,
            Node.branch (BranchNode.new (setChoice (setChoice emptyChoices nibS
              (NodeRef.new (nodes.length + 1))) nibP (NodeRef.new nodes.length)))], values,
          Node.extension (ExtensionNode.new
            (path.split_to_vec (lcpLen ((nibblesOf path.data).drop path.offset)
              ((nibblesOf vp).drop path.offset)))
            (NodeRef.new (nodes.length + 2))),
          InsertAction.insert (NodeRef.new nodes.length)))) ∧
    (∀ res : NodesStorage × ValuesStorage × Node × InsertAction,
      l.insert nodes values path = some res →
      ((∃ e, res.2.2.1 = Node.extension e) ↔
        lcpLen ((nibblesOf path.data).drop path.offset)
          ((nibblesOf vp).drop path.offset) ≠ 0) ∧
      (∀ e, res.2.2.1 = Node.extension e →
        e.prefixBytes = path.split_to_vec (lcpLen ((nibblesOf path.data).drop path.offset)
          ((nibblesOf vp).drop path.offset)))) := by
  have hbind : l.value_ref.bind (fun j => values[j]?) = some (vp, vv) := by
    rw [hv]; simp [ValueRef.new, hlook]
  constructor
  · intro nibS nibP h1 h2 hnibS hnibP
    unfold LeafNode.insert finishInsert
    rw [hbind]
    simp only [hc, Bool.false_eq_true, if_false, NibbleSlice.count_prefix_slice,
      NibbleSlice.rest, NibbleSlice.offset_add, NibbleSlice.new, NibbleSlice.nth,
      NibbleSlice.next, NodeHash.mark_as_dirty, Nat.zero_add, hv]
    rw [hnibS, hnibP]
    by_cases h0 : lcpLen ((nibblesOf path.data).drop path.offset)
        ((nibblesOf vp).drop path.offset) = 0
    · left
      refine ⟨h0, ?_⟩
      simp only [h0, Nat.add_zero] at h1 h2
      simp [h0, h1, h2, arenaInsert, InsertAction.quantize_self]
    · right
      refine ⟨h0, ?_⟩
      simp [h0, h1, h2, arenaInsert, InsertAction.quantize_self]
  · intro res h
    simp only [LeafNode.insert, finishInsert, NibbleSlice.count_prefix_slice,
      NibbleSlice.rest, NibbleSlice.offset_add, NibbleSlice.new, NibbleSlice.nth,
      NibbleSlice.next, NodeHash.mark_as_dirty, Nat.zero_add] at h
    rw [hbind] at h
    simp only [hc, Bool.false_eq_true, if_false] at h
    repeat' split at h
    all_goals cases h
    all_goals simp_all [ExtensionNode.new]

/-- Witness for C5: inserting 0x22 into the leaf storing 0x12 yields a bare
Branch and action Insert of node reference 0. -/
theorem claim_C5_witness :
    (LeafNode.new (ValueRef.new 0)).insert [] [([0x12], [0x12, 0x34, 0x56, 0x78])]
      (NibbleSlice.new [0x22]) =
      some ([Node.leaf (LeafNode.new ValueRef.default), Node.leaf ⟨ValueRef.new 0, none⟩],
        [([0x12], [0x12, 0x34, 0x56, 0x78])],
        Node.branch (BranchNode.new (setChoice (setChoice emptyChoices 1
          (NodeRef.new 1)) 2 (NodeRef.new 0))),
        InsertAction.insert (NodeRef.new 0)) := by
  have h := (claim_C5 (LeafNode.new (ValueRef.new 0)) []
    [([0x12], [0x12, 0x34, 0x56, 0x78])] (NibbleSlice.new [0x22]) 0
    [0x12] [0x12, 0x34, 0x56, 0x78] rfl rfl (by decide)).1 1 2
    (by decide) (by decide) (by decide) (by decide)
  rcases h with ⟨_, hres⟩ | ⟨h0, _⟩
  · rw [hres]
    decide
  · exact absurd rfl (by exact_mod_cast h0)

/-- Claim C9: with the head offset inside both the inserting and the stored
key and the remainders unequal, the nibble lookups unwrapped by the source in
cases A, B and C always succeed (the divergence offset is strictly inside the
stored key in cases A and C and strictly inside the inserting key in cases B
and C), and the insert returns a result rather than panicking. -/
theorem claim_C9 (l : LeafNode) (nodes : NodesStorage) (values : ValuesStorage)
    (path : NibbleSlice) (i : Nat) (vp vv : List Nat)
    (hv : l.value_ref = ValueRef.new i) (hlook : values[i]? = some (vp, vv))
    (hoffK : path.offset ≤ 2 * path.data.length)
    (hoffS : path.offset ≤ 2 * vp.length)
    (hc : path.cmp_rest vp = false) :
    ((path.offset + lcpLen ((nibblesOf path.data).drop path.offset)
        ((nibblesOf vp).drop path.offset) = 2 * path.data.length ∨
      (path.offset + lcpLen ((nibblesOf path.data).drop path.offset)
        ((nibblesOf vp).drop path.offset) ≠ 2 * path.data.length ∧
       path.offset + lcpLen ((nibblesOf path.data).drop path.offset)
        ((nibblesOf vp).drop path.offset) ≠ 2 * vp.length)) →
      path.offset + lcpLen ((nibblesOf path.data).drop path.offset)
        ((nibblesOf vp).drop path.offset) < 2 * vp.length ∧
      ∃ nib, (nibblesOf vp)[path.offset + lcpLen ((nibblesOf path.data).drop path.offset)
        ((nibblesOf vp).drop path.offset)]? = some nib) ∧
    (path.offset + lcpLen ((nibblesOf path.data).drop path.offset)
        ((nibblesOf vp).drop path.offset) ≠ 2 * path.data.length →
      path.offset + lcpLen ((nibblesOf path.data).drop path.offset)
        ((nibblesOf vp).drop path.offset) < 2 * path.data.length ∧
      ∃ nib, (nibblesOf path.data)[path.offset + lcpLen ((nibblesOf path.data).drop path.offset)
        ((nibblesOf vp).drop path.offset)]? = some nib) ∧
    (∃ res, l.insert nodes values path = some res) := by
  have hbind : l.value_ref.bind (fun j => values[j]?) = some (vp, vv) := by
    rw [hv]; simp [ValueRef.new, hlook]
  obtain ⟨hb1, hb2, hb3⟩ := divergence_bounds path vp hoffK hoffS hc
  have hvpLt : path.offset + lcpLen ((nibblesOf path.data).drop path.offset)
      ((nibblesOf vp).drop path.offset) < 2 * vp.length →
      ∃ nib, (nibblesOf vp)[path.offset + lcpLen ((nibblesOf path.data).drop path.offset)
        ((nibblesOf vp).drop path.offset)]? = some nib := fun hlt =>
    getElem?_exists_of_lt (by rw [nibblesOf_length]; exact hlt)
  have hkeyLt : path.offset + lcpLen ((nibblesOf path.data).drop path.offset)
      ((nibblesOf vp).drop path.offset) < 2 * path.data.length →
      ∃ nib, (nibblesOf path.data)[path.offset + lcpLen ((nibblesOf path.data).drop path.offset)
        ((nibblesOf vp).drop path.offset)]? = some nib := fun hlt =>
    getElem?_exists_of_lt (by rw [nibblesOf_length]; exact hlt)
  refine ⟨?_, ?_, ?_⟩
  · rintro (hA | ⟨hnA, hnB⟩)
    · exact ⟨hb1 hA, hvpLt (hb1 hA)⟩
    · exact ⟨hb3 hnB, hvpLt (hb3 hnB)⟩
  · intro hnA
    exact ⟨hb2 hnA, hkeyLt (hb2 hnA)⟩
  · unfold LeafNode.insert finishInsert
    rw [hbind]
    simp only [hc, Bool.false_eq_true, if_false, NibbleSlice.count_prefix_slice,
      NibbleSlice.rest, NibbleSlice.offset_add, NibbleSlice.new, NibbleSlice.nth,
      NibbleSlice.next, NodeHash.mark_as_dirty, Nat.zero_add, hv]
    by_cases hA : path.offset + lcpLen ((nibblesOf path.data).drop path.offset)
        ((nibblesOf vp).drop path.offset) = 2 * path.data.length
    · obtain ⟨nib, hnib⟩ := hvpLt (hb1 hA)
      by_cases h0 : lcpLen ((nibblesOf path.data).drop path.offset)
          ((nibblesOf vp).drop path.offset) = 0
      · simp only [h0, Nat.add_zero] at hA hnib
        simp only [hA] at h0 hnib
        simp [hA, hnib, h0]
      · rw [hA] at hnib
        simp [hA, hnib, h0]
    · by_cases hB : path.offset + lcpLen ((nibblesOf path.data).drop path.offset)
          ((nibblesOf vp).drop path.offset) = 2 * vp.length
      · obtain ⟨nib, hnib⟩ := hkeyLt (hb2 hA)
        by_cases h0 : lcpLen ((nibblesOf path.data).drop path.offset)
            ((nibblesOf vp).drop path.offset) = 0
        · simp only [h0, Nat.add_zero] at hA hB hnib
          simp only [hB] at h0 hA hnib
          simp [hA, hB, hnib, h0]
        · rw [hB] at hnib hA
          have hAeq : vp.length ≠ path.data.length := by omega
          simp [hA, hB, hAeq, hnib, h0]
      · obtain ⟨nibS, hnibS⟩ := hvpLt (hb3 hB)
        obtain ⟨nibP, hnibP⟩ := hkeyLt (hb2 hA)
        by_cases h0 : lcpLen ((nibblesOf path.data).drop path.offset)
            ((nibblesOf vp).drop path.offset) = 0
        · simp only [h0, Nat.add_zero] at hA hB hnibS hnibP
          simp [hA, hB, hnibS, hnibP, h0]
        · simp [hA, hB, hnibS, hnibP, h0]

/-- Witness for C9: inserting 0x22 into the leaf storing 0x12 returns a
result (no unwrap fails). -/
theorem claim_C9_witness :
    ∃ res, (LeafNode.new (ValueRef.new 0)).insert [] [([0x12], [0x12, 0x34, 0x56, 0x78])]
      (NibbleSlice.new [0x22]) = some res :=
  (claim_C9 (LeafNode.new (ValueRef.new 0)) [] [([0x12], [0x12, 0x34, 0x56, 0x78])]
    (NibbleSlice.new [0x22]) 0 [0x12] [0x12, 0x34, 0x56, 0x78] rfl rfl
    (by decide) (by decide) (by decide)).2.2

/-- Claim C10: leaf insert leaves the values storage unchanged (binding the
value is deferred to the caller through the returned action), and every leaf
it allocates in the node arena carries either the original value reference
(the re-inserted self) or the default, absent one (the fresh child). -/
theorem claim_C10 (l : LeafNode) (nodes : NodesStorage) (values : ValuesStorage)
    (path : NibbleSlice) (res : NodesStorage × ValuesStorage × Node × InsertAction)
    (h : l.insert nodes values path = some res) :
    res.2.1 = values ∧
    ∀ lf : LeafNode, Node.leaf lf ∈ res.1.drop nodes.length →
      lf.value_ref = l.value_ref ∨ lf.value_ref = ValueRef.default := by
  simp only [LeafNode.insert, finishInsert, NodeHash.mark_as_dirty, arenaInsert] at h
  repeat' split at h
  all_goals cases h
  all_goals refine ⟨rfl, fun lf hmem => ?_⟩
  all_goals simp only [List.append_assoc, List.drop_left, List.drop_length] at hmem
  all_goals simp [LeafNode.new, ValueRef.default] at hmem
  all_goals try (rcases hmem with h1 | h1)
  all_goals simp_all [ValueRef.default]

/-- Witness for C10: the case-C insert of 0x22 into the leaf storing 0x12
leaves the values storage unchanged and its allocated child leaf carries the
default value reference. -/
theorem claim_C10_witness :
    (([Node.leaf (LeafNode.new ValueRef.default), Node.leaf ⟨ValueRef.new 0, none⟩],
      ([([0x12], [0x12, 0x34, 0x56, 0x78])] : ValuesStorage),
      Node.branch (BranchNode.new (setChoice (setChoice emptyChoices 1
        (NodeRef.new 1)) 2 (NodeRef.new 0))),
      InsertAction.insert (NodeRef.new 0)) :
        NodesStorage × ValuesStorage × Node × InsertAction).2.1 =
      [([0x12], [0x12, 0x34, 0x56, 0x78])] ∧
    ((LeafNode.new ValueRef.default).value_ref = (LeafNode.new (ValueRef.new 0)).value_ref ∨
      (LeafNode.new ValueRef.default).value_ref = ValueRef.default) := by
  have h := claim_C10 (LeafNode.new (ValueRef.new 0)) []
    [([0x12], [0x12, 0x34, 0x56, 0x78])] (NibbleSlice.new [0x22])
    ([Node.leaf (LeafNode.new ValueRef.default), Node.leaf ⟨ValueRef.new 0, none⟩],
      [([0x12], [0x12, 0x34, 0x56, 0x78])],
      Node.branch (BranchNode.new (setChoice (setChoice emptyChoices 1
        (NodeRef.new 1)) 2 (NodeRef.new 0))),
      InsertAction.insert (NodeRef.new 0)) (by decide)
  exact ⟨h.1, h.2 (LeafNode.new ValueRef.default) (by decide)⟩

/-- Claim C8: leaf insert dirties the cached hash before any case analysis:
its behaviour does not depend on the incoming cached hash, the leaf returned
in the replacement case is dirty, and every leaf it appends to the node
arena is dirty, so no insert leaves a stale clean cached hash on the leaf it
was called on. -/
theorem claim_C8 (l : LeafNode) (nodes : NodesStorage) (values : ValuesStorage)
    (path : NibbleSlice) :
    l.insert nodes values path =
      LeafNode.insert ⟨l.value_ref, none⟩ nodes values path ∧
    ∀ res : NodesStorage × ValuesStorage × Node × InsertAction,
      l.insert nodes values path = some res →
      (∀ lf : LeafNode, res.2.2.1 = Node.leaf lf → lf.hash = none) ∧
      (∀ lf : LeafNode, Node.leaf lf ∈ res.1.drop nodes.length → lf.hash = none) := by
  refine ⟨rfl, fun res h => ?_⟩
  simp only [LeafNode.insert, finishInsert, NodeHash.mark_as_dirty, arenaInsert] at h
  repeat' split at h
  all_goals cases h
  all_goals constructor
  all_goals intro lf hh
  all_goals simp only [List.append_assoc, List.drop_left, List.drop_length] at hh
  all_goals simp [LeafNode.new] at hh
  all_goals try (rcases hh with h1 | h1)
  all_goals simp_all

/-- Witness for C8: an insert on a leaf with a stale clean cached hash
behaves as on the dirtied leaf, and the replacement-case result leaf is
dirty. -/
theorem claim_C8_witness :
    ((⟨ValueRef.new 0, some [0x09]⟩ : LeafNode).insert []
        [([0x12], [0x12, 0x34, 0x56, 0x78])] (NibbleSlice.new [0x12]) =
      LeafNode.insert ⟨ValueRef.new 0, none⟩ []
        [([0x12], [0x12, 0x34, 0x56, 0x78])] (NibbleSlice.new [0x12])) ∧
    (⟨ValueRef.new 0, none⟩ : LeafNode).hash = none := by
  have h := claim_C8 (⟨ValueRef.new 0, some [0x09]⟩ : LeafNode) []
    [([0x12], [0x12, 0x34, 0x56, 0x78])] (NibbleSlice.new [0x12])
  refine ⟨h.1, ?_⟩
  exact (h.2 ([], [([0x12], [0x12, 0x34, 0x56, 0x78])],
    Node.leaf ⟨ValueRef.new 0, none⟩, InsertAction.replace (ValueRef.new 0))
    (by decide)).1 ⟨ValueRef.new 0, none⟩ (by decide)


/-- Claim C7: `compute_hash` consults the cached hash first: a clean cache
returns the cached bytes for any values storage and key offset (no
re-encoding, no storage access), and a second call on the leaf carrying the
cache left by a first call returns byte-identical output. -/
theorem claim_C7 :
    (∀ (l : LeafNode) (values : ValuesStorage) (ko : Nat) (r : List Nat),
      l.hash = some r → l.compute_hash values ko = some (r, some r)) ∧
    (∀ (l : LeafNode) (values : ValuesStorage) (ko : Nat) (r : List Nat) (h' : NodeHash),
      l.compute_hash values ko = some (r, h') →
      LeafNode.compute_hash ⟨l.value_ref, h'⟩ values ko = some (r, h')) := by
  constructor
  · intro l values ko r hr
    unfold LeafNode.compute_hash
    simp [NodeHash.extract_ref, hr]
  · intro l values ko r h' h
    unfold LeafNode.compute_hash at h ⊢
    repeat' split at h
    all_goals cases h
    all_goals simp_all [NodeHash.extract_ref]

/-- Witness for C7: a leaf with a clean cached hash returns it unchanged for
an empty values storage, and the fresh inline hash of the leaf storing
("key", "value") is returned identically by a second call. -/
theorem claim_C7_witness :
    (LeafNode.compute_hash ⟨ValueRef.new 0, some [0x01, 0x02]⟩ [] 7 =
      some ([0x01, 0x02], some [0x01, 0x02])) ∧
    (LeafNode.compute_hash ⟨ValueRef.new 0,
        some (leafEncoding [0x6B, 0x65, 0x79] [0x76, 0x61, 0x6C, 0x75, 0x65] 0)⟩
      [([0x6B, 0x65, 0x79], [0x76, 0x61, 0x6C, 0x75, 0x65])] 0 =
      some (leafEncoding [0x6B, 0x65, 0x79] [0x76, 0x61, 0x6C, 0x75, 0x65] 0,
        some (leafEncoding [0x6B, 0x65, 0x79] [0x76, 0x61, 0x6C, 0x75, 0x65] 0))) := by
  constructor
  · exact claim_C7.1 ⟨ValueRef.new 0, some [0x01, 0x02]⟩ [] 7 [0x01, 0x02] rfl
  · exact claim_C7.2 (LeafNode.new (ValueRef.new 0))
      [([0x6B, 0x65, 0x79], [0x76, 0x61, 0x6C, 0x75, 0x65])] 0
      (leafEncoding [0x6B, 0x65, 0x79] [0x76, 0x61, 0x6C, 0x75, 0x65] 0)
      (some (leafEncoding [0x6B, 0x65, 0x79] [0x76, 0x61, 0x6C, 0x75, 0x65] 0))
      (by decide)

set_option maxRecDepth 1000000 in
/-- Claim C6: a dirty leaf hashes the two-item list of the framed hex-prefix
key suffix (kind Leaf) and the framed value bytes, keeping the encoding
verbatim when its length is at most 31 bytes and applying Keccak-256
otherwise; concretely, ("key", "value") encodes inline to
CB 84 20 6B 65 79 85 76 61 6C 75 65 and ("key", "a comparatively long
value") hashes to the 32-byte digest starting EB 92 75 B3. -/
theorem claim_C6 :
    (∀ (l : LeafNode) (values : ValuesStorage) (ko i : Nat) (key value : List Nat),
      l.hash = none → l.value_ref = ValueRef.new i → values[i]? = some (key, value) →
      ((leafEncoding key value ko).length ≤ 31 →
        l.compute_hash values ko =
          some (leafEncoding key value ko, some (leafEncoding key value ko))) ∧
      (¬ (leafEncoding key value ko).length ≤ 31 →
        l.compute_hash values ko =
          some (keccak256 (leafEncoding key value ko),
            some (keccak256 (leafEncoding key value ko))))) ∧
    ((LeafNode.new (ValueRef.new 0)).compute_hash
        [([0x6B, 0x65, 0x79], [0x76, 0x61, 0x6C, 0x75, 0x65])] 0 =
      some ([0xCB, 0x84, 0x20, 0x6B, 0x65, 0x79, 0x85, 0x76, 0x61, 0x6C, 0x75, 0x65],
        some [0xCB, 0x84, 0x20, 0x6B, 0x65, 0x79, 0x85, 0x76, 0x61, 0x6C, 0x75, 0x65])) ∧
    ((LeafNode.new (ValueRef.new 0)).compute_hash
        [([0x6B, 0x65, 0x79], [0x61, 0x20, 0x63, 0x6F, 0x6D, 0x70, 0x61, 0x72, 0x61,
          0x74, 0x69, 0x76, 0x65, 0x6C, 0x79, 0x20, 0x6C, 0x6F, 0x6E, 0x67, 0x20,
          0x76, 0x61, 0x6C, 0x75, 0x65])] 0 =
      some ([0xEB, 0x92, 0x75, 0xB3, 0xAE, 0x09, 0x3A, 0x17, 0x75, 0x7C, 0xFB, 0x42,
          0xF7, 0xD5, 0x57, 0xF9, 0xE5, 0x77, 0xBD, 0x5B, 0xEB, 0x86, 0xA8, 0x68,
          0x49, 0x91, 0xA6, 0x5B, 0x87, 0x5F, 0x80, 0x7A],
        some [0xEB, 0x92, 0x75, 0xB3, 0xAE, 0x09, 0x3A, 0x17, 0x75, 0x7C, 0xFB, 0x42,
          0xF7, 0xD5, 0x57, 0xF9, 0xE5, 0x77, 0xBD, 0x5B, 0xEB, 0x86, 0xA8, 0x68,
          0x49, 0x91, 0xA6, 0x5B, 0x87, 0x5F, 0x80, 0x7A])) := by
  refine ⟨?_, by decide, by decide⟩
  intro l values ko i key value hdirty hv hlook
  have hbind : l.value_ref.bind (fun j => values[j]?) = some (key, value) := by
    rw [hv]; simp [ValueRef.new, hlook]
  constructor <;> intro hle
  · unfold LeafNode.compute_hash
    simp only [NodeHash.extract_ref, hdirty]
    rw [hbind]
    simp [hashFinalize, hle]
  · unfold LeafNode.compute_hash
    simp only [NodeHash.extract_ref, hdirty]
    rw [hbind]
    simp [hashFinalize, hle]

set_option maxRecDepth 1000000 in
/-- Witness for C6: the inline branch of the dichotomy applied to the
("key", "value") leaf produces the 12-byte encoding itself. -/
theorem claim_C6_witness :
    (LeafNode.new (ValueRef.new 0)).compute_hash
        [([0x6B, 0x65, 0x79], [0x76, 0x61, 0x6C, 0x75, 0x65])] 0 =
      some (leafEncoding [0x6B, 0x65, 0x79] [0x76, 0x61, 0x6C, 0x75, 0x65] 0,
        some (leafEncoding [0x6B, 0x65, 0x79] [0x76, 0x61, 0x6C, 0x75, 0x65] 0)) :=
  (claim_C6.1 (LeafNode.new (ValueRef.new 0))
    [([0x6B, 0x65, 0x79], [0x76, 0x61, 0x6C, 0x75, 0x65])] 0 0
    [0x6B, 0x65, 0x79] [0x76, 0x61, 0x6C, 0x75, 0x65] rfl rfl rfl).1 (by decide)

end PMT
